import Mathlib

/-!
Shallow embedding of the bb8 connection-pool core (`src/bb8/src/inner.rs`).

Conventions of the embedding:
* `Instant` and `Duration` are modelled as `Nat` (milliseconds).  Rust's
  `Instant` subtraction is only ever applied with the later instant on the
  left in this code (monotonic clock), which matches `Nat` truncated
  subtraction.
* Rust `u32` counters are modelled as `Nat`; every decrement in the source
  is guarded (by an approval token or by ownership of a connection), and the
  corresponding theorems carry those guards as hypotheses.
* A oneshot waiter (`oneshot::Sender<Conn<C>>`) is modelled by a `Bool`:
  `true` means the receiver is still alive so `send` succeeds, `false`
  means the receiver was dropped so `send` fails and returns the
  connection.
* Mutex-protected mutation becomes explicit state passing on
  `PoolInternals`.
* Suspension points (`Manager::connect`, `is_valid`, the oneshot await,
  `tokio::time::timeout`) become oracle parameters recording the outcome of
  the awaited operation.
-/

/-- Connection record: the manager-supplied value plus its birth instant.
From `struct Conn<C> { conn: C, birth: Instant }`. -/
structure Conn (C : Type) where
  conn : C
  birth : Nat
deriving Repr, DecidableEq

/-- Idle record: a connection record plus the instant it last became idle.
From `struct IdleConn<C> { conn: Conn<C>, idle_start: Instant }`. -/
structure IdleConn (C : Type) where
  conn : Conn C
  idle_start : Nat
deriving Repr, DecidableEq

/-- From `impl From<IdleConn<C>> for Conn<C>`: `conn.conn`. -/
def Conn.fromIdle {C : Type} (c : IdleConn C) : Conn C :=
  c.conn

/-- From `impl From<Conn<C>> for IdleConn<C>`: wraps the record with
`idle_start: Instant::now()`; the current instant is passed explicitly. -/
def IdleConn.fromConn {C : Type} (c : Conn C) (now : Nat) : IdleConn C :=
  { conn := c, idle_start := now }

/-- Modelled from the spec: the builder-provided configuration (§3
"Configuration"), restricted to the fields `inner.rs` reads.  The builder
itself lives in `api.rs`, which is not part of the provided source. -/
structure Builder where
  max_size : Nat
  min_idle : Option Nat
  max_lifetime : Option Nat
  idle_timeout : Option Nat
  connection_timeout : Nat
  reaper_rate : Nat
  test_on_check_out : Bool
deriving Repr, DecidableEq

/-- Modelled from the spec: the two externally visible checkout failure
kinds (§7): `TimedOut`, and a manager-originated `User` error.  The enum
lives in `api.rs`, which is not part of the provided source; `inner.rs`
only ever constructs `RunError::TimedOut`. -/
inductive RunError (E : Type) where
  | User (e : E)
  | TimedOut
deriving Repr, DecidableEq

/-- An approval token.  From `pub(crate) struct Approval { _priv: () }`. -/
structure Approval where
  priv_ : Unit
deriving Repr, DecidableEq

/-- From `pub(crate) struct ApprovalIter { num: usize }`. -/
structure ApprovalIter where
  num : Nat
deriving Repr, DecidableEq

/-- From `impl Iterator for ApprovalIter`: yields an `Approval` and
decrements `num` while `num ≠ 0`. -/
def ApprovalIter.next : ApprovalIter → Option (Approval × ApprovalIter)
  | ⟨0⟩ => none
  | ⟨n + 1⟩ => some (⟨()⟩, ⟨n⟩)

/-- From `impl ExactSizeIterator for ApprovalIter`: `self.num`. -/
def ApprovalIter.len (it : ApprovalIter) : Nat :=
  it.num

/-- Exhausting the iterator: the list of approvals it yields, by repeated
`next`. -/
def ApprovalIter.toList : ApprovalIter → List Approval
  | ⟨0⟩ => []
  | ⟨n + 1⟩ => ⟨()⟩ :: ApprovalIter.toList ⟨n⟩

/-- The lock-protected pool data.  From `struct PoolInternals<M>`:
`waiters: VecDeque<oneshot::Sender<Conn>>` (each sender modelled by the
liveness of its receiver), `conns: VecDeque<IdleConn>`, `num_conns: u32`,
`pending_conns: u32`. -/
structure PoolInternals (C : Type) where
  waiters : List Bool
  conns : List (IdleConn C)
  num_conns : Nat
  pending_conns : Nat
deriving Repr, DecidableEq

namespace PoolInternals

/-- From `impl Default for PoolInternals`: empty deques, zero counters. -/
def init (C : Type) : PoolInternals C :=
  { waiters := [], conns := [], num_conns := 0, pending_conns := 0 }

/-- From `PoolInternals::pop`: `self.conns.pop_front().map(|idle| idle.conn)`.
Returns the popped record and the remaining internals. -/
def pop {C : Type} (s : PoolInternals C) :
    Option (Conn C) × PoolInternals C :=
  match s.conns with
  | [] => (none, s)
  | idle :: rest => (some idle.conn, { s with conns := rest })

/-- The hand-off loop inside `PoolInternals::put`: pop waiters from the
front; a dead waiter (`send` returns `Err(c)`) is discarded and the loop
retries with the same connection; a live waiter receives the connection and
the loop stops.  Returns the remaining waiters and `some c` when a waiter
received `c`, `none` when the waiter deque drained. -/
def handOff {C : Type} (c : Conn C) : List Bool → List Bool × Option (Conn C)
  | [] => ([], none)
  | w :: ws => if w then (ws, some c) else handOff c ws

/-- From `PoolInternals::put`: when called with an approval, decrement
`pending_conns` and increment `num_conns`; then loop popping waiters,
sending the connection to the first live one, and push the record to the
back of `conns` only if the waiter deque drains without a successful send.
The second component records the delivered connection, if any (the value
that left through the oneshot sender). -/
def put {C : Type} (s : PoolInternals C) (c : IdleConn C)
    (approval : Option Approval) : PoolInternals C × Option (Conn C) :=
  let s1 :=
    if approval.isSome then
      { s with pending_conns := s.pending_conns - 1,
               num_conns := s.num_conns + 1 }
    else s
  match handOff c.conn s1.waiters with
  | (ws, some d) => ({ s1 with waiters := ws }, some d)
  | (ws, none) => ({ s1 with waiters := ws, conns := s1.conns ++ [c] }, none)

/-- From `PoolInternals::connect_failed`: `self.pending_conns -= 1`
(consuming the approval). -/
def connect_failed {C : Type} (s : PoolInternals C) (_ : Approval) :
    PoolInternals C :=
  { s with pending_conns := s.pending_conns - 1 }

/-- From `PoolInternals::dropped`: `self.num_conns -= num`. -/
def dropped {C : Type} (s : PoolInternals C) (num : Nat) : PoolInternals C :=
  { s with num_conns := s.num_conns - num }

/-- From `PoolInternals::approvals`: clamp `num` to
`max_size - (num_conns + pending_conns)` (zero when no headroom), add the
clamped value to `pending_conns`, and return an iterator of that length. -/
def approvals {C : Type} (s : PoolInternals C) (config : Builder)
    (num : Nat) : PoolInternals C × ApprovalIter :=
  let current := s.num_conns + s.pending_conns
  let allowed :=
    if current < config.max_size then config.max_size - current else 0
  let n := min num allowed
  ({ s with pending_conns := s.pending_conns + n }, ⟨n⟩)

/-- From `PoolInternals::wanted`: request
`min_idle - (conns.len() + pending_conns)` approvals when that is positive
(`min_idle` defaulting to 0), else zero, through `approvals`. -/
def wanted {C : Type} (s : PoolInternals C) (config : Builder) :
    PoolInternals C × ApprovalIter :=
  let available := s.conns.length + s.pending_conns
  let min_idle := config.min_idle.getD 0
  let w := if available < min_idle then min_idle - available else 0
  s.approvals config w

/-- From `PoolInternals::push_waiter`: push the sender to the back of
`waiters` and mint approvals for one connection. -/
def push_waiter {C : Type} (s : PoolInternals C) (w : Bool)
    (config : Builder) : PoolInternals C × ApprovalIter :=
  ({ s with waiters := s.waiters ++ [w] }).approvals config 1

/-- The retain predicate of `PoolInternals::reap`: keep a record iff
`now - idle_start < idle_timeout` (when set) and `now - birth <
max_lifetime` (when set). -/
def reapKeep {C : Type} (config : Builder) (now : Nat) (c : IdleConn C) :
    Bool :=
  (match config.idle_timeout with
   | some t => decide (now - c.idle_start < t)
   | none => true) &&
  (match config.max_lifetime with
   | some l => decide (now - c.conn.birth < l)
   | none => true)

/-- From `PoolInternals::reap`: retain in `conns` only the records the
predicate keeps and return the number removed. -/
def reap {C : Type} (s : PoolInternals C) (config : Builder) (now : Nat) :
    PoolInternals C × Nat :=
  let before := s.conns.length
  let conns := s.conns.filter (reapKeep config now)
  ({ s with conns := conns }, before - conns.length)

end PoolInternals

/-- From `PoolInner::put_back`: `has_broken` is queried before locking (its
result is the `broken` oracle); a broken connection goes through
`drop_connections(1)` (decrement `num_conns`, then mint and dispatch
`wanted()` approvals); a healthy one goes through `put(conn.into(), None)`
with `idle_start = now`.  Returns the new internals, the connection
delivered to a waiter (if any), and the approvals dispatched. -/
def put_back {C : Type} (cfg : Builder) (s : PoolInternals C) (c : Conn C)
    (broken : Bool) (now : Nat) :
    PoolInternals C × Option (Conn C) × ApprovalIter :=
  if broken then
    let s1 := s.dropped 1
    let (s2, approvals) := s1.wanted cfg
    (s2, none, approvals)
  else
    let (s1, delivered) := s.put (IdleConn.fromConn c now) none
    (s1, delivered, ⟨0⟩)

/-- From `PoolInner::reap`: `internals.reap(statics)` followed by
`drop_connections` with the reaped count (decrement `num_conns`, then mint
and dispatch `wanted()` approvals). -/
def poolReap {C : Type} (cfg : Builder) (s : PoolInternals C) (now : Nat) :
    PoolInternals C × ApprovalIter :=
  let (s1, reaped) := s.reap cfg now
  let s2 := s1.dropped reaped
  s2.wanted cfg

/-- Which kind of reference to the shared pool state a spawned background
task's closure captures: an `Arc<SharedPool>` (strong) or a
`Weak<SharedPool>` (weak). -/
inductive PoolRef where
  | strong
  | weak
deriving Repr, DecidableEq

/-- From `schedule_reaping(interval, weak_shared)`: the spawned reaper task
captures `weak_shared : Weak<SharedPool<M>>`, produced by
`Arc::downgrade(&inner)` in `PoolInner::new` — a weak reference. -/
def reaper_task_ref : PoolRef :=
  PoolRef.weak

/-- From `PoolInner::spawn_replenishing_approvals`: `let this =
self.clone(); spawn(async move { ... this ... })` — the spawned connector
task captures `this : PoolInner<M>`, a clone of the `Arc<SharedPool>`,
i.e. a strong reference.  (The `Arc::downgrade(&self.inner)` inside
`add_connection` is taken from this live strong reference, so its
immediate `upgrade` always succeeds while the task runs.) -/
def connector_task_ref : PoolRef :=
  PoolRef.strong

/-- One tick of the loop spawned by `schedule_reaping`: `upgraded` is the
result of `weak_shared.upgrade()`; on `None` the loop breaks (the task
exits, returning `none` and touching no state), on `Some` it runs
`PoolInner::reap`. -/
def reaperTick {C : Type} (cfg : Builder)
    (upgraded : Option (PoolInternals C)) (now : Nat) :
    Option (PoolInternals C × ApprovalIter) :=
  match upgraded with
  | none => none
  | some s => some (poolReap cfg s now)

/-- The backoff update in `add_connection`'s `Err` branch:
`delay = max(Duration::from_millis(200), delay);
 delay = min(self.inner.statics.connection_timeout / 2, delay * 2)`. -/
def backoffStep (connection_timeout delay : Nat) : Nat :=
  let d1 := max 200 delay
  min (connection_timeout / 2) (d1 * 2)

/-- Modelled from the spec for comparison with `backoffStep`: the update
the spec states, `delay ← min(connection_timeout / 2, max(200ms, delay ×
2))`. -/
def specBackoffStep (connection_timeout delay : Nat) : Nat :=
  min (connection_timeout / 2) (max 200 (delay * 2))

/-- The `Err(e)` branch of the `connect` match in `add_connection`: if
`Instant::now() - start > connection_timeout`, consume the approval via
`connect_failed` and return the error (`Sum.inl`); otherwise advance the
backoff and sleep for the new delay (`Sum.inr` carries the slept delay,
which is also the `delay` value of the next iteration). -/
def connectErrStep {C E : Type} (cfg : Builder) (start now : Nat)
    (delay : Nat) (e : E) (a : Approval) (s : PoolInternals C) :
    Sum (PoolInternals C × E) Nat :=
  if cfg.connection_timeout < now - start then
    Sum.inl (s.connect_failed a, e)
  else
    Sum.inr (backoffStep cfg.connection_timeout delay)

/-- The `Ok(conn)` branch of the `connect` match in `add_connection`: wrap
the fresh value with `birth = now` and `idle_start = now` and `put` it with
the approval. -/
def connectOkStep {C : Type} (c : C) (now : Nat) (a : Approval)
    (s : PoolInternals C) : PoolInternals C × Option (Conn C) :=
  s.put { conn := { conn := c, birth := now }, idle_start := now } (some a)

/-- The result-draining loop of `spawn_replenishing_approvals`: each
`Ok(())` is discarded, each `Err(e)` is passed to
`statics.error_sink.sink(e)`.  Returns the sequence of errors handed to
the sink. -/
def sinkErrors {E : Type} : List (Except E Unit) → List E
  | [] => []
  | Except.ok _ :: rest => sinkErrors rest
  | Except.error e :: rest => e :: sinkErrors rest

/-- The checkout loop of `PoolInner::get`, with explicit fuel.  Each
iteration pops the front idle record (breaking to the slow path when
`conns` is empty), mints and dispatches `wanted()` approvals, and — when
`test_on_check_out` is set — validates the popped connection through the
manager (the `valid` oracle).  On validation failure the connection is
dropped, `drop_connections(1)` runs (decrement `num_conns`, mint
`wanted()`), and the loop restarts.  The fuel only bounds the recursion;
`getLoopFuel_fuel_irrelevant` shows any fuel ≥ `conns.length` gives the
same result, so `getLoop` below is the loop's exact behaviour. -/
def getLoopFuel {C : Type} (cfg : Builder) (valid : Conn C → Bool) :
    Nat → PoolInternals C → PoolInternals C × Option (Conn C)
  | 0, s => (s, none)
  | fuel + 1, s =>
    match s.conns with
    | [] => (s, none)
    | c :: rest =>
      let s1 : PoolInternals C := { s with conns := rest }
      let s2 := (s1.wanted cfg).1
      if cfg.test_on_check_out then
        if valid c.conn then (s2, some c.conn)
        else
          let s3 := s2.dropped 1
          let s4 := (s3.wanted cfg).1
          getLoopFuel cfg valid fuel s4
      else (s2, some c.conn)

/-- The checkout loop of `PoolInner::get` (see `getLoopFuel`): the loop
removes one idle record per iteration, so `conns.length` steps always
suffice. -/
def getLoop {C : Type} (cfg : Builder) (valid : Conn C → Bool)
    (s : PoolInternals C) : PoolInternals C × Option (Conn C) :=
  getLoopFuel cfg valid s.conns.length s

/-- From `PoolInner::get`: run the checkout loop; if it breaks without a
connection, create a oneshot channel, `push_waiter` the sender (the `w`
oracle records whether the receiver is still alive at hand-off time),
dispatch the minted approvals, and await the receiver under
`timeout(connection_timeout, rx)`.  The `rx` oracle is the await's
outcome: `none` models `Err(Elapsed)` (deadline expiry), `some none`
models `Ok(Err(Canceled))` (sender dropped), `some (some c)` models
`Ok(Ok(c))`.  Only a delivered connection yields `Ok`; everything else is
`RunError::TimedOut`. -/
def PoolInner.get {C E : Type} (cfg : Builder) (valid : Conn C → Bool) (w : Bool)
    (rx : Option (Option (Conn C))) (s : PoolInternals C) :
    PoolInternals C × Except (RunError E) (Conn C) :=
  match getLoop cfg valid s with
  | (s1, some c) => (s1, Except.ok c)
  | (s1, none) =>
    let (s2, _approvals) := s1.push_waiter w cfg
    match rx with
    | some (some c) => (s2, Except.ok c)
    | _ => (s2, Except.error RunError.TimedOut)

/-- The state-changing operations of the pool core, as a step relation.
Each constructor is one operation of `inner.rs`; the side conditions are
the ownership facts the code relies on: `put` with an approval and
`connect_failed` consume an approval token (so `pending_conns ≥ 1`),
`dropped n` destroys `n` connections the pool owns (so `n ≤ num_conns`),
and `put_back` returns a checked-out connection the pool counts in
`num_conns`. -/
inductive Step {C : Type} (cfg : Builder) :
    PoolInternals C → PoolInternals C → Prop where
  | wanted (s : PoolInternals C) :
      Step cfg s (s.wanted cfg).1
  | push_waiter (s : PoolInternals C) (w : Bool) :
      Step cfg s (s.push_waiter w cfg).1
  | approvals (s : PoolInternals C) (n : Nat) :
      Step cfg s (s.approvals cfg n).1
  | put_ok (s : PoolInternals C) (c : IdleConn C) (a : Approval)
      (h : 1 ≤ s.pending_conns) :
      Step cfg s (s.put c (some a)).1
  | put_plain (s : PoolInternals C) (c : IdleConn C) :
      Step cfg s (s.put c none).1
  | connect_failed (s : PoolInternals C) (a : Approval)
      (h : 1 ≤ s.pending_conns) :
      Step cfg s (s.connect_failed a)
  | dropped (s : PoolInternals C) (n : Nat) (h : n ≤ s.num_conns) :
      Step cfg s (s.dropped n)
  | put_back (s : PoolInternals C) (c : Conn C) (broken : Bool) (now : Nat)
      (h : broken = true → 1 ≤ s.num_conns) :
      Step cfg s (put_back cfg s c broken now).1
  | reap (s : PoolInternals C) (now : Nat) :
      Step cfg s (poolReap cfg s now).1

/-- The pool states reachable from the initial (`Default`) internals by
the operations of `Step`. -/
inductive Reachable {C : Type} (cfg : Builder) : PoolInternals C → Prop where
  | init : Reachable cfg (PoolInternals.init C)
  | step {s t : PoolInternals C} :
      Reachable cfg s → Step cfg s t → Reachable cfg t

/-- A concrete configuration used by the witness theorems: `max_size = 4`,
`min_idle = 2`, no lifetime bounds, 30 s timeouts, validation on checkout
enabled. -/
def cfgEx : Builder :=
  { max_size := 4, min_idle := some 2, max_lifetime := none,
    idle_timeout := none, connection_timeout := 30000,
    reaper_rate := 30000, test_on_check_out := true }

/-- A concrete configuration with `min_idle` unset and validation off. -/
def cfgNone : Builder :=
  { max_size := 4, min_idle := none, max_lifetime := none,
    idle_timeout := none, connection_timeout := 30000,
    reaper_rate := 30000, test_on_check_out := false }

/-- A concrete connection record for witnesses. -/
def cEx : Conn Unit :=
  { conn := (), birth := 0 }

/-- A concrete idle record for witnesses. -/
def icEx : IdleConn Unit :=
  { conn := cEx, idle_start := 0 }

/-- A concrete pool state for the `put_back` witness: one checked-out
connection and three parked waiters, the first and last of which have
cancelled. -/
def sW : PoolInternals Unit :=
  { waiters := [false, true, false], conns := [], num_conns := 1,
    pending_conns := 0 }

/-- A concrete pool state for the checkout-validation witness: a single
idle connection, counted in `num_conns`. -/
def sV : PoolInternals Unit :=
  { waiters := [], conns := [icEx], num_conns := 1, pending_conns := 0 }

/-! Helper lemmas shared by the claim theorems. -/

theorem toList_len (n : Nat) : (ApprovalIter.toList ⟨n⟩).length = n := by
  induction n with
  | zero => simp [ApprovalIter.toList]
  | succ n ih => simp [ApprovalIter.toList, ih]

theorem approvals_spec {C : Type} (cfg : Builder) (s : PoolInternals C)
    (n : Nat) :
    s.approvals cfg n =
      ({ s with pending_conns :=
            s.pending_conns
              + min n (cfg.max_size - (s.num_conns + s.pending_conns)) },
       ⟨min n (cfg.max_size - (s.num_conns + s.pending_conns))⟩) := by
  unfold PoolInternals.approvals
  dsimp only
  split_ifs with h
  · rfl
  · simp [Nat.sub_eq_zero_of_le (Nat.le_of_not_lt h)]

theorem wanted_as_approvals {C : Type} (cfg : Builder) (s : PoolInternals C) :
    s.wanted cfg
      = s.approvals cfg
          (cfg.min_idle.getD 0 - (s.conns.length + s.pending_conns)) := by
  unfold PoolInternals.wanted
  dsimp only
  split_ifs with h
  · rfl
  · simp [Nat.sub_eq_zero_of_le (Nat.le_of_not_lt h)]

theorem approvals_counters {C : Type} (cfg : Builder) (s : PoolInternals C)
    (n : Nat) :
    (s.approvals cfg n).1.num_conns = s.num_conns ∧
    (s.approvals cfg n).1.conns = s.conns ∧
    (s.approvals cfg n).1.waiters = s.waiters := by
  rw [approvals_spec]
  exact ⟨rfl, rfl, rfl⟩

theorem wanted_counters {C : Type} (cfg : Builder) (s : PoolInternals C) :
    (s.wanted cfg).1.num_conns = s.num_conns ∧
    (s.wanted cfg).1.conns = s.conns ∧
    (s.wanted cfg).1.waiters = s.waiters := by
  rw [wanted_as_approvals]
  exact approvals_counters cfg s _

theorem approvals_inv {C : Type} (cfg : Builder) (s : PoolInternals C)
    (n : Nat) (h : s.num_conns + s.pending_conns ≤ cfg.max_size) :
    (s.approvals cfg n).1.num_conns + (s.approvals cfg n).1.pending_conns
      ≤ cfg.max_size := by
  rw [approvals_spec]
  dsimp
  omega

theorem wanted_inv {C : Type} (cfg : Builder) (s : PoolInternals C)
    (h : s.num_conns + s.pending_conns ≤ cfg.max_size) :
    (s.wanted cfg).1.num_conns + (s.wanted cfg).1.pending_conns
      ≤ cfg.max_size := by
  rw [wanted_as_approvals]
  exact approvals_inv cfg s _ h

/-! Claim theorems. -/

/-- Claim C4: `approvals(n)` clamps `n` to the headroom
`max_size - (num_conns + pending_conns)` (0 when `num_conns +
pending_conns ≥ max_size`), increments `pending_conns` by exactly the
clamped value (touching nothing else), and returns an iterator that yields
exactly that many `Approval` tokens. -/
theorem approvals_clamp_mint {C : Type} (cfg : Builder) (s : PoolInternals C)
    (n : Nat) :
    (s.approvals cfg n).1.pending_conns
        = s.pending_conns
            + min n (cfg.max_size - (s.num_conns + s.pending_conns)) ∧
    (cfg.max_size ≤ s.num_conns + s.pending_conns →
        (s.approvals cfg n).1.pending_conns = s.pending_conns) ∧
    (s.approvals cfg n).1.num_conns = s.num_conns ∧
    (s.approvals cfg n).1.conns = s.conns ∧
    (s.approvals cfg n).1.waiters = s.waiters ∧
    ((s.approvals cfg n).2).toList.length
        = min n (cfg.max_size - (s.num_conns + s.pending_conns)) ∧
    ((s.approvals cfg n).2).len
        = min n (cfg.max_size - (s.num_conns + s.pending_conns)) := by
  rw [approvals_spec]
  refine ⟨rfl, ?_, rfl, rfl, rfl, ?_, rfl⟩
  · intro h
    dsimp
    omega
  · exact toList_len _

/-- Claim C4 witness: at `cfgEx` (`max_size = 4`) on the initial state,
requesting 3 approvals mints exactly 3. -/
theorem approvals_clamp_mint_witness :
    ((PoolInternals.init Unit).approvals cfgEx 3).1.pending_conns
        = (PoolInternals.init Unit).pending_conns
            + min 3 (cfgEx.max_size
                - ((PoolInternals.init Unit).num_conns
                    + (PoolInternals.init Unit).pending_conns)) ∧
    (cfgEx.max_size
        ≤ (PoolInternals.init Unit).num_conns
            + (PoolInternals.init Unit).pending_conns →
      ((PoolInternals.init Unit).approvals cfgEx 3).1.pending_conns
        = (PoolInternals.init Unit).pending_conns) ∧
    ((PoolInternals.init Unit).approvals cfgEx 3).1.num_conns
        = (PoolInternals.init Unit).num_conns ∧
    ((PoolInternals.init Unit).approvals cfgEx 3).1.conns
        = (PoolInternals.init Unit).conns ∧
    ((PoolInternals.init Unit).approvals cfgEx 3).1.waiters
        = (PoolInternals.init Unit).waiters ∧
    (((PoolInternals.init Unit).approvals cfgEx 3).2).toList.length
        = min 3 (cfgEx.max_size
            - ((PoolInternals.init Unit).num_conns
                + (PoolInternals.init Unit).pending_conns)) ∧
    (((PoolInternals.init Unit).approvals cfgEx 3).2).len
        = min 3 (cfgEx.max_size
            - ((PoolInternals.init Unit).num_conns
                + (PoolInternals.init Unit).pending_conns)) :=
  approvals_clamp_mint cfgEx (PoolInternals.init Unit) 3

/-- Claim C5: `wanted()` requests exactly
`min_idle - (conns.len() + pending_conns)` admissions (0 when `min_idle`
is unset — it defaults to 0 — or the target is already met, by `Nat`
truncated subtraction), and the returned approvals are those minted by
`approvals` for this count. -/
theorem wanted_restores_min_idle {C : Type} (cfg : Builder)
    (s : PoolInternals C) :
    s.wanted cfg
        = s.approvals cfg
            (cfg.min_idle.getD 0 - (s.conns.length + s.pending_conns)) ∧
    (cfg.min_idle = none → s.wanted cfg = (s, ⟨0⟩)) ∧
    (cfg.min_idle.getD 0 ≤ s.conns.length + s.pending_conns →
        s.wanted cfg = (s, ⟨0⟩)) := by
  refine ⟨wanted_as_approvals cfg s, ?_, ?_⟩
  · intro h
    rw [wanted_as_approvals, approvals_spec, h]
    simp
  · intro h
    rw [wanted_as_approvals, approvals_spec, Nat.sub_eq_zero_of_le h]
    simp

/-- Claim C5 witness: with `min_idle = 2` (from `cfgEx`) and an initial
state with one pending connection, `wanted` requests one admission. -/
theorem wanted_restores_min_idle_witness :
    (PoolInternals.init Unit).wanted cfgEx
        = (PoolInternals.init Unit).approvals cfgEx
            (cfgEx.min_idle.getD 0
              - ((PoolInternals.init Unit).conns.length
                  + (PoolInternals.init Unit).pending_conns)) ∧
    (PoolInternals.init Unit).wanted cfgNone
        = (PoolInternals.init Unit, ⟨0⟩) :=
  ⟨(wanted_restores_min_idle cfgEx (PoolInternals.init Unit)).1,
   (wanted_restores_min_idle cfgNone (PoolInternals.init Unit)).2.1 rfl⟩

/-- Claim C10: the `IdleConn`/`Conn` conversions preserve the underlying
connection value and its birth instant — unwrapping an idle record
(checkout / `pop`) returns exactly the wrapped `Conn` with its original
`birth`, wrapping a returned `Conn` changes nothing but attaches a fresh
`idle_start` — `birth` is assigned at connect time (`connectOkStep` builds
`Conn { conn, birth: now }`), and no operation rewrites a stored record
(`put` and `reap` only insert or remove whole records). -/
theorem conn_roundtrip (C : Type) :
    (∀ (c : Conn C) (now : Nat),
        Conn.fromIdle (IdleConn.fromConn c now) = c ∧
        (IdleConn.fromConn c now).conn = c ∧
        (IdleConn.fromConn c now).conn.birth = c.birth ∧
        (IdleConn.fromConn c now).idle_start = now) ∧
    (∀ ic : IdleConn C, Conn.fromIdle ic = ic.conn) ∧
    (∀ s : PoolInternals C,
        (s.pop).1 = s.conns.head?.map Conn.fromIdle ∧
        (s.pop).2.conns = s.conns.tail) ∧
    (∀ (c : C) (now : Nat) (a : Approval) (s : PoolInternals C),
        connectOkStep c now a s
          = s.put { conn := { conn := c, birth := now }, idle_start := now }
              (some a)) ∧
    (∀ (s : PoolInternals C) (ic : IdleConn C) (a : Option Approval),
        ((s.put ic a).1.conns).Sublist (s.conns ++ [ic])) ∧
    (∀ (s : PoolInternals C) (cfg : Builder) (now : Nat),
        ((s.reap cfg now).1.conns).Sublist s.conns) := by
  refine ⟨fun c now => ⟨rfl, rfl, rfl, rfl⟩, fun ic => rfl, fun s => ⟨?_, ?_⟩,
    fun c now a s => rfl, fun s ic a => ?_, fun s cfg now => ?_⟩
  · unfold PoolInternals.pop
    obtain ⟨w, conns, nc, pc⟩ := s
    cases conns <;> rfl
  · unfold PoolInternals.pop
    obtain ⟨w, conns, nc, pc⟩ := s
    cases conns <;> rfl
  · unfold PoolInternals.put
    rcases h : PoolInternals.handOff ic.conn
        (if a.isSome then
          { s with pending_conns := s.pending_conns - 1,
                   num_conns := s.num_conns + 1 }
         else s).waiters with ⟨ws, d⟩
    cases a <;> cases d <;> simp_all
  · unfold PoolInternals.reap
    dsimp only
    exact List.filter_sublist s.conns

/-- Claim C2 counterexample: with the default-style 30 s
`connection_timeout` and the worker's initial `delay = 0`, a first connect
failure well inside the budget sleeps 400 ms — the code doubles *after*
raising the delay to 200 ms (`max` then `* 2`) — whereas the claimed update
`min(connection_timeout / 2, max(200ms, delay × 2))` yields 200 ms. -/
theorem backoff_first_delay_counterexample :
    connectErrStep (C := Unit) (E := Unit) cfgEx 0 100 0 () ⟨()⟩
        (PoolInternals.init Unit)
      = Sum.inr 400 ∧
    specBackoffStep cfgEx.connection_timeout 0 = 200 ∧
    (400 : Nat) ≠ 200 := by
  refine ⟨?_, by decide, by decide⟩
  rfl

/-- Claim C2 amended: when `Manager::connect` fails and the budget is not
exhausted (`now - start ≤ connection_timeout`), the worker sleeps
`min(connection_timeout / 2, max(200ms, delay) × 2)`; hence the first
retry sleeps `min(connection_timeout / 2, 400ms)` (not 200 ms), delays
double once `delay ≥ 200ms`, and every delay is capped at half the
`connection_timeout`. -/
theorem connector_backoff {C E : Type} (cfg : Builder)
    (start now delay : Nat) (e : E) (a : Approval) (s : PoolInternals C)
    (h : now - start ≤ cfg.connection_timeout) :
    connectErrStep cfg start now delay e a s
        = Sum.inr (min (cfg.connection_timeout / 2) (max 200 delay * 2)) ∧
    (200 ≤ delay →
        backoffStep cfg.connection_timeout delay
          = min (cfg.connection_timeout / 2) (delay * 2)) ∧
    backoffStep cfg.connection_timeout delay ≤ cfg.connection_timeout / 2 ∧
    backoffStep cfg.connection_timeout 0
        = min (cfg.connection_timeout / 2) 400 := by
  refine ⟨?_, ?_, ?_, rfl⟩
  · unfold connectErrStep
    rw [if_neg (Nat.not_lt.mpr h)]
    rfl
  · intro hd
    unfold backoffStep
    rw [Nat.max_eq_right hd]
  · exact Nat.min_le_left _ _

/-- Claim C2 amended witness: a failure 100 ms into a 30 s budget with
`delay = 0` sleeps `min(15000, 400) = 400` ms. -/
theorem connector_backoff_witness :
    connectErrStep (C := Unit) (E := Unit) cfgEx 0 100 250 () ⟨()⟩
        (PoolInternals.init Unit)
      = Sum.inr (min (cfgEx.connection_timeout / 2) (max 200 250 * 2)) ∧
    (200 ≤ 250 →
        backoffStep cfgEx.connection_timeout 250
          = min (cfgEx.connection_timeout / 2) (250 * 2)) ∧
    backoffStep cfgEx.connection_timeout 250 ≤ cfgEx.connection_timeout / 2 ∧
    backoffStep cfgEx.connection_timeout 0
        = min (cfgEx.connection_timeout / 2) 400 :=
  connector_backoff cfgEx 0 100 250 () ⟨()⟩ (PoolInternals.init Unit)
    (by decide)

/-- Claim C3 counterexample: the connector-worker task spawned by
`spawn_replenishing_approvals` captures `this = self.clone()`, a strong
`Arc` handle — not a weak reference — refuting "every background task of
the pool holds only a weak reference to the shared pool state". -/
theorem connector_ref_counterexample :
    connector_task_ref ≠ PoolRef.weak := by
  decide

/-- Claim C3 amended: the reaper task holds only a weak reference and, on
the tick at which its upgrade fails, exits without further state change;
the connector worker, by contrast, captures a strong clone of the pool
handle (`this = self.clone()`), which keeps the pool state alive until the
worker finishes (its internal `Arc::downgrade`/`upgrade` of that live
strong handle always succeeds). -/
theorem background_task_refs :
    reaper_task_ref = PoolRef.weak ∧
    connector_task_ref = PoolRef.strong ∧
    (∀ (C : Type) (cfg : Builder) (now : Nat),
        reaperTick (C := C) cfg none now = none) ∧
    (∀ (C : Type) (cfg : Builder) (s : PoolInternals C) (now : Nat),
        reaperTick cfg (some s) now = some (poolReap cfg s now)) :=
  ⟨rfl, rfl, fun _ _ _ => rfl, fun _ _ _ _ => rfl⟩

theorem handOff_of_any {C : Type} (c : Conn C) (ws : List Bool)
    (h : ws.any id = true) :
    PoolInternals.handOff c ws = ((ws.dropWhile fun w => !w).tail, some c) := by
  induction ws with
  | nil => simp at h
  | cons w ws ih =>
    cases w with
    | true => simp [PoolInternals.handOff, List.dropWhile]
    | false =>
      simp only [List.any_cons, id, Bool.false_or] at h
      simp [PoolInternals.handOff, List.dropWhile, ih h]

theorem handOff_of_none {C : Type} (c : Conn C) (ws : List Bool)
    (h : ws.any id = false) :
    PoolInternals.handOff c ws = ([], none) := by
  induction ws with
  | nil => rfl
  | cons w ws ih =>
    cases w with
    | true => simp at h
    | false =>
      simp only [List.any_cons, id, Bool.false_or] at h
      simp [PoolInternals.handOff, ih h]

/-- Claim C6: `put_back` of a healthy connection pops waiters from the
front, skipping each dead one, and stops at the first live waiter, which
receives exactly the returned connection with the idle deque untouched; if
no live waiter exists the deque drains and the connection is pushed to the
back of `conns` as an idle record with `idle_start = now`.  `put_back` of
a broken connection instead decrements `num_conns` by 1 and mints and
dispatches `wanted()` approvals. -/
theorem put_back_spec {C : Type} (cfg : Builder) (s : PoolInternals C)
    (c : Conn C) (now : Nat) :
    (s.waiters.any id = true →
        put_back cfg s c false now
          = ({ s with waiters := (s.waiters.dropWhile fun w => !w).tail },
             some c, ⟨0⟩)) ∧
    (s.waiters.any id = false →
        put_back cfg s c false now
          = ({ s with waiters := [],
                      conns := s.conns ++ [{ conn := c, idle_start := now }] },
             none, ⟨0⟩)) ∧
    put_back cfg s c true now
        = (((s.dropped 1).wanted cfg).1, none, ((s.dropped 1).wanted cfg).2) ∧
    (s.dropped 1).num_conns = s.num_conns - 1 := by
  refine ⟨?_, ?_, rfl, rfl⟩
  · intro h
    unfold put_back PoolInternals.put IdleConn.fromConn
    simp [handOff_of_any c s.waiters h]
  · intro h
    unfold put_back PoolInternals.put IdleConn.fromConn
    simp [handOff_of_none c s.waiters h]

/-- Claim C6 witness: returning a healthy connection to `sW` (waiters
`[false, true, false]`) skips the dead front waiter and delivers to the
second; returning a broken one decrements `num_conns` from 1 to 0 and
mints `wanted()` approvals. -/
theorem put_back_spec_witness :
    (sW.waiters.any id = true →
        put_back cfgEx sW cEx false 7
          = ({ sW with waiters := (sW.waiters.dropWhile fun w => !w).tail },
             some cEx, ⟨0⟩)) ∧
    (sW.waiters.any id = false →
        put_back cfgEx sW cEx false 7
          = ({ sW with
                waiters := [],
                conns := sW.conns ++ [{ conn := cEx, idle_start := 7 }] },
             none, ⟨0⟩)) ∧
    put_back cfgEx sW cEx true 7
        = (((sW.dropped 1).wanted cfgEx).1, none,
           ((sW.dropped 1).wanted cfgEx).2) ∧
    (sW.dropped 1).num_conns = sW.num_conns - 1 :=
  put_back_spec cfgEx sW cEx 7

theorem reapKeep_eq_all {C : Type} (cfg : Builder) (now : Nat)
    (ic : IdleConn C) :
    PoolInternals.reapKeep cfg now ic
      = ((cfg.idle_timeout.all fun t => decide (now - ic.idle_start < t)) &&
         (cfg.max_lifetime.all fun l => decide (now - ic.conn.birth < l))) := by
  unfold PoolInternals.reapKeep
  cases cfg.idle_timeout <;> cases cfg.max_lifetime <;> rfl

/-- Claim C9: a reaper tick retains in `conns` exactly the records with
`now - idle_start < idle_timeout` (when set) and `now - birth <
max_lifetime` (when set), decrements `num_conns` by exactly the number of
records removed, then mints (and dispatches) `wanted()` approvals; the
waiter deque is untouched, and checked-out connections (counted in
`num_conns` but absent from `conns`) are affected only through that
decrement, which is bounded by the number of removed idle records. -/
theorem reaper_tick_spec {C : Type} (cfg : Builder) (s : PoolInternals C)
    (now : Nat) :
    (poolReap cfg s now).1.conns
        = s.conns.filter (fun ic =>
            (cfg.idle_timeout.all fun t => decide (now - ic.idle_start < t)) &&
            (cfg.max_lifetime.all fun l => decide (now - ic.conn.birth < l))) ∧
    (poolReap cfg s now).1.num_conns
        = s.num_conns
            - (s.conns.length
                - (s.conns.filter (PoolInternals.reapKeep cfg now)).length) ∧
    (poolReap cfg s now).1.waiters = s.waiters ∧
    poolReap cfg s now
        = (((s.reap cfg now).1).dropped (s.reap cfg now).2).wanted cfg := by
  obtain ⟨hn, hc, hw⟩ :=
    wanted_counters cfg (((s.reap cfg now).1).dropped (s.reap cfg now).2)
  refine ⟨?_, ?_, ?_, rfl⟩
  · rw [show (poolReap cfg s now).1.conns
          = s.conns.filter (PoolInternals.reapKeep cfg now) from hc]
    exact List.filter_congr (fun ic _ => reapKeep_eq_all cfg now ic)
  · exact hn
  · exact hw

theorem getLoopFuel_nil {C : Type} (cfg : Builder) (valid : Conn C → Bool)
    (fuel : Nat) (s : PoolInternals C) (h : s.conns = []) :
    getLoopFuel cfg valid fuel s = (s, none) := by
  cases fuel <;> simp [getLoopFuel, h]

theorem getLoopFuel_cons {C : Type} (cfg : Builder) (valid : Conn C → Bool)
    (fuel : Nat) (s : PoolInternals C) (c : IdleConn C)
    (rest : List (IdleConn C)) (h : s.conns = c :: rest) :
    getLoopFuel cfg valid (fuel + 1) s
      = (if cfg.test_on_check_out then
           if valid c.conn then
             ((({ s with conns := rest }).wanted cfg).1, some c.conn)
           else
             getLoopFuel cfg valid fuel
               ((((({ s with conns := rest }).wanted cfg).1.dropped 1)).wanted
                  cfg).1
         else ((({ s with conns := rest }).wanted cfg).1, some c.conn)) := by
  simp only [getLoopFuel, h]

theorem getLoopFuel_irrelevant {C : Type} (cfg : Builder)
    (valid : Conn C → Bool) :
    ∀ (fuel : Nat) (s : PoolInternals C), s.conns.length ≤ fuel →
      getLoopFuel cfg valid fuel s = getLoop cfg valid s := by
  intro fuel
  induction fuel with
  | zero =>
    intro s h
    have h0 : s.conns.length = 0 := Nat.le_zero.mp h
    unfold getLoop
    rw [h0]
  | succ fuel ih =>
    intro s h
    cases hc : s.conns with
    | nil =>
      rw [getLoopFuel_nil cfg valid _ s hc]
      unfold getLoop
      rw [getLoopFuel_nil cfg valid _ s hc]
    | cons c rest =>
      have hlen : s.conns.length = rest.length + 1 := by rw [hc]; rfl
      have hrest : rest.length ≤ fuel := by omega
      have h1 := (wanted_counters cfg ({ s with conns := rest })).2.1
      have h2 := (wanted_counters cfg
        ((({ s with conns := rest }).wanted cfg).1.dropped 1)).2.1
      have hs4 : ((((({ s with conns := rest }).wanted cfg).1.dropped
          1)).wanted cfg).1.conns = rest := by
        rw [h2]
        exact h1
      rw [getLoopFuel_cons cfg valid fuel s c rest hc]
      unfold getLoop
      rw [hlen, getLoopFuel_cons cfg valid rest.length s c rest hc]
      split_ifs with ht hv
      · rfl
      · rw [ih _ (by rw [hs4]; exact hrest)]
        unfold getLoop
        rw [hs4]
      · rfl

/-- Claim C7: in `get()` with `test_on_check_out` set, a popped connection
failing `is_valid` is dropped, `num_conns` is decremented by 1 through
`drop_connections(1)`, `wanted()` approvals are minted, and the checkout
loop restarts from the fast path on the resulting state; the validation
error is never surfaced — `get` never returns a `User` error. -/
theorem checkout_validation_failure {C : Type} (cfg : Builder)
    (valid : Conn C → Bool) (s : PoolInternals C) (c : IdleConn C)
    (rest : List (IdleConn C)) (h1 : s.conns = c :: rest)
    (h2 : cfg.test_on_check_out = true) (h3 : valid c.conn = false) :
    getLoop cfg valid s
      = getLoop cfg valid
          ((((({ s with conns := rest }).wanted cfg).1.dropped 1)).wanted
            cfg).1 ∧
    ((({ s with conns := rest }).wanted cfg).1.dropped 1).num_conns
      = (({ s with conns := rest }).wanted cfg).1.num_conns - 1 ∧
    (∀ (E : Type) (w : Bool) (rx : Option (Option (Conn C))) (e : E),
        (PoolInner.get (E := E) cfg valid w rx s).2
          ≠ Except.error (RunError.User e)) := by
  have hw1 := (wanted_counters cfg ({ s with conns := rest })).2.1
  have hw2 := (wanted_counters cfg
    ((({ s with conns := rest }).wanted cfg).1.dropped 1)).2.1
  have hs4 : ((((({ s with conns := rest }).wanted cfg).1.dropped 1)).wanted
      cfg).1.conns = rest := by
    rw [hw2]
    exact hw1
  refine ⟨?_, rfl, ?_⟩
  · conv_lhs => unfold getLoop
    rw [show s.conns.length = rest.length + 1 by rw [h1]; rfl]
    rw [getLoopFuel_cons cfg valid rest.length s c rest h1, h2, h3]
    simp only [eq_self_iff_true, Bool.false_eq_true, if_true, if_false]
    exact getLoopFuel_irrelevant cfg valid rest.length _ (by rw [hs4])
  · intro E w rx e
    rcases hg : getLoop cfg valid s with ⟨s1, o⟩
    unfold PoolInner.get
    rw [hg]
    cases o with
    | some c2 => simp
    | none =>
      rcases hpw : s1.push_waiter w cfg with ⟨s2, ap⟩
      rcases rx with _ | (_ | c2) <;> simp [hpw]

/-- Claim C7 witness: at `cfgEx` (validation on) with a validator that
rejects everything and the one-idle-connection state `sV`, the checkout
loop drops the connection, decrements `num_conns`, mints `wanted()`
approvals and restarts; no `User` error is ever returned. -/
theorem checkout_validation_failure_witness :
    getLoop cfgEx (fun _ => false) sV
      = getLoop cfgEx (fun _ => false)
          ((((({ sV with conns := ([] : List (IdleConn Unit)) }).wanted cfgEx).1.dropped 1)).wanted
            cfgEx).1 ∧
    ((({ sV with conns := ([] : List (IdleConn Unit)) }).wanted cfgEx).1.dropped 1).num_conns
      = (({ sV with conns := ([] : List (IdleConn Unit)) }).wanted cfgEx).1.num_conns - 1 ∧
    (∀ (E : Type) (w : Bool) (rx : Option (Option (Conn Unit))) (e : E),
        (PoolInner.get (E := E) cfgEx (fun _ => false) w rx sV).2
          ≠ Except.error (RunError.User e)) :=
  checkout_validation_failure cfgEx (fun _ => false) sV icEx [] rfl rfl rfl

/-- Claim C8: a parked `get()` awaits its oneshot receiver under
`timeout(connection_timeout, rx)` after pushing its waiter; for every
await outcome other than a delivered connection — deadline expiry (`none`)
or sender drop (`some none`) — it returns exactly `RunError::TimedOut`,
and a delivery returns the connection; `get` never returns a `User`
error, and the connector workers' errors are routed one-for-one to the
error sink. -/
theorem parked_get_times_out {C E : Type} (cfg : Builder)
    (valid : Conn C → Bool) (w : Bool) (rx : Option (Option (Conn C)))
    (s : PoolInternals C) (hpark : (getLoop cfg valid s).2 = none) :
    (∀ c, rx = some (some c) →
        PoolInner.get (E := E) cfg valid w rx s
          = (((getLoop cfg valid s).1.push_waiter w cfg).1, Except.ok c)) ∧
    ((∀ c, rx ≠ some (some c)) →
        PoolInner.get (E := E) cfg valid w rx s
          = (((getLoop cfg valid s).1.push_waiter w cfg).1,
             Except.error RunError.TimedOut)) ∧
    (∀ e : E, (PoolInner.get (E := E) cfg valid w rx s).2
        ≠ Except.error (RunError.User e)) ∧
    (∀ results : List (Except E Unit),
        sinkErrors results
          = results.filterMap (fun r =>
              match r with
              | Except.error e => some e
              | Except.ok _ => none)) := by
  refine ⟨?_, ?_, ?_, ?_⟩
  · intro c hc
    subst hc
    rcases hg : getLoop cfg valid s with ⟨s1, o⟩
    rw [hg] at hpark
    cases o with
    | some c2 => exact absurd hpark (by simp)
    | none =>
      unfold PoolInner.get
      rw [hg]
  · intro hc
    rcases hg : getLoop cfg valid s with ⟨s1, o⟩
    rw [hg] at hpark
    cases o with
    | some c2 => exact absurd hpark (by simp)
    | none =>
      unfold PoolInner.get
      rw [hg]
      rcases hpw : s1.push_waiter w cfg with ⟨s2, ap⟩
      rcases rx with _ | (_ | c2) <;> simp_all [hpw]
  · intro e
    rcases hg : getLoop cfg valid s with ⟨s1, o⟩
    unfold PoolInner.get
    rw [hg]
    cases o with
    | some c2 => simp
    | none =>
      rcases hpw : s1.push_waiter w cfg with ⟨s2, ap⟩
      rcases rx with _ | (_ | c2) <;> simp [hpw]
  · intro results
    induction results with
    | nil => rfl
    | cons r rest ih => cases r <;> simp [sinkErrors, ih]

/-- Claim C8 witness: on the empty pool the checkout parks; with the await
expiring (`rx = none`) the result is exactly `TimedOut`. -/
theorem parked_get_times_out_witness :
    PoolInner.get (E := Unit) cfgEx (fun _ => true) true none
        (PoolInternals.init Unit)
      = (((getLoop cfgEx (fun _ => true)
            (PoolInternals.init Unit)).1.push_waiter true cfgEx).1,
         Except.error RunError.TimedOut) ∧
    (∀ e : Unit,
        (PoolInner.get (E := Unit) cfgEx (fun _ => true) true none
            (PoolInternals.init Unit)).2
          ≠ Except.error (RunError.User e)) :=
  ⟨(parked_get_times_out cfgEx (fun _ => true) true none
      (PoolInternals.init Unit) rfl).2.1 (fun c => by simp),
   (parked_get_times_out cfgEx (fun _ => true) true none
      (PoolInternals.init Unit) rfl).2.2.1⟩

theorem put_counters {C : Type} (s : PoolInternals C) (c : IdleConn C)
    (a : Option Approval) :
    (s.put c a).1.num_conns
        = (if a.isSome then s.num_conns + 1 else s.num_conns) ∧
    (s.put c a).1.pending_conns
        = (if a.isSome then s.pending_conns - 1 else s.pending_conns) := by
  cases a with
  | none =>
    unfold PoolInternals.put
    rcases h : PoolInternals.handOff c.conn s.waiters with ⟨ws, d⟩
    cases d <;> simp [h]
  | some a =>
    unfold PoolInternals.put
    rcases h : PoolInternals.handOff c.conn
        ({ s with pending_conns := s.pending_conns - 1,
                  num_conns := s.num_conns + 1 }).waiters with ⟨ws, d⟩
    cases d <;> simp [h]

theorem step_inv {C : Type} {cfg : Builder} {s t : PoolInternals C}
    (hinv : s.num_conns + s.pending_conns ≤ cfg.max_size)
    (hst : Step cfg s t) :
    t.num_conns + t.pending_conns ≤ cfg.max_size := by
  cases hst with
  | wanted => exact wanted_inv cfg s hinv
  | push_waiter w =>
    unfold PoolInternals.push_waiter
    exact approvals_inv cfg _ 1 hinv
  | approvals n => exact approvals_inv cfg s n hinv
  | put_ok c a h =>
    obtain ⟨h1, h2⟩ := put_counters s c (some a)
    simp only [Option.isSome_some, if_true] at h1 h2
    omega
  | put_plain c =>
    obtain ⟨h1, h2⟩ := put_counters s c none
    simp only [Option.isSome_none, Bool.false_eq_true, if_false] at h1 h2
    omega
  | connect_failed a h =>
    unfold PoolInternals.connect_failed
    dsimp
    omega
  | dropped n h =>
    unfold PoolInternals.dropped
    dsimp
    omega
  | put_back c broken now h =>
    cases broken with
    | false =>
      obtain ⟨h1, h2⟩ := put_counters s (IdleConn.fromConn c now) none
      simp only [Option.isSome_none, Bool.false_eq_true, if_false] at h1 h2
      unfold put_back
      simp only [Bool.false_eq_true, if_false]
      omega
    | true =>
      have hd : (s.dropped 1).num_conns + (s.dropped 1).pending_conns
          ≤ cfg.max_size := by
        unfold PoolInternals.dropped
        dsimp
        omega
      exact wanted_inv cfg (s.dropped 1) hd
  | reap now =>
    have hd : ((s.reap cfg now).1.dropped (s.reap cfg now).2).num_conns
        + ((s.reap cfg now).1.dropped (s.reap cfg now).2).pending_conns
        ≤ cfg.max_size := by
      show s.num_conns - _ + s.pending_conns ≤ cfg.max_size
      omega
    exact wanted_inv cfg ((s.reap cfg now).1.dropped (s.reap cfg now).2) hd

/-- Claim C1: for every reachable pool state,
`num_conns + pending_conns ≤ max_size`, and this bound is preserved by
every state-changing operation of the core — `wanted`, `push_waiter`,
`approvals`, `put` with an approval (connector success), `connect_failed`
(connector give-up), `dropped`, `put_back`, and reaping — each a `Step`
constructor. -/
theorem pool_size_invariant (C : Type) (cfg : Builder) :
    (∀ s t : PoolInternals C,
        s.num_conns + s.pending_conns ≤ cfg.max_size → Step cfg s t →
          t.num_conns + t.pending_conns ≤ cfg.max_size) ∧
    (∀ s : PoolInternals C, Reachable cfg s →
        s.num_conns + s.pending_conns ≤ cfg.max_size) := by
  refine ⟨fun s t h hst => step_inv h hst, fun s hr => ?_⟩
  induction hr with
  | init => exact Nat.zero_le _
  | step hr hst ih => exact step_inv ih hst

/-- Claim C1 witness: the invariant at the initial state under `cfgEx`,
obtained through the reachability half of the invariant theorem. -/
theorem pool_size_invariant_witness :
    (PoolInternals.init Unit).num_conns
        + (PoolInternals.init Unit).pending_conns ≤ cfgEx.max_size :=
  (pool_size_invariant Unit cfgEx).2 (PoolInternals.init Unit) Reachable.init
